import Mathlib

/-!
Verification of the astrid turn-completion engine (`astrid/main.py`,
`astrid/conversation.py`, `astrid/utils.py`) against its natural-language
specification.

Modelling conventions (shallow embedding):
* Python strings are `String`, `None`-able values are `Option _`.
* The model-completion collaborator (`litellm.acompletion` plus
  `stream_chunk_builder`) is an oracle `ModelOracle`; an `Except.error`
  models an exception raised during the request or the stream.
* `json.loads` and `json.dumps` are Python-stdlib collaborators and are
  passed in as parameters (`JsonParser`, a partial parse where `none`
  models a raised exception, and a total `dumps` function; `dumps` is
  total because `json.dumps(..., default=str)` does not raise).
* The UI sink's methods return `Except String Unit`; `Except.error`
  models an exception raised back into the engine.
* `int(len(text.split()) * 1.3)` is modelled as `13 * wordCount / 10`
  over `Nat`; for every word count below 5 * 10^14 the binary-float
  computation and the exact rational computation have the same floor,
  so the two agree on all realistic inputs.
* The engine loop of `complete_turn` runs on fuel `max_tool_loops + 1`.
  Each continuing iteration increments `loop_count` and the loop
  continues only while `loop_count < max_tool_loops`, so this fuel is
  provably never exhausted (the exhaustion branch is dead code, see
  `complete_turn_loop_fuel_unreachable`); structural recursion keeps
  every definition computable by the kernel.
-/

namespace Astrid

/-- JSON values, the results of `json.loads` and inputs of `json.dumps`. -/
inductive JValue where
  | null
  | bool (b : Bool)
  | num (n : Int)
  | str (s : String)
  | arr (elems : List JValue)
  | obj (fields : List (String × JValue))

/-- One entry of an assistant message's `tool_calls` list, flattened from
`tc["id"]`, `tc["function"]["name"]`, `tc["function"]["arguments"]`. -/
structure ToolCall where
  id : String
  name : String
  arguments : String
  deriving DecidableEq, Repr

/-- `litellm.utils.Message`: role-tagged content with the optional
tool fields.  `tool_calls = []` models a falsy (`None` or empty)
`tool_calls` attribute. -/
structure Message where
  role : String
  content : Option String
  tool_calls : List ToolCall
  name : Option String
  tool_call_id : Option String
  deriving DecidableEq, Repr

/-- `conversation.Step`: one message plus optional usage accounting. -/
structure Step where
  message : Message
  usage : Option Nat
  deriving DecidableEq, Repr

/-- `conversation.Turn`: ordered steps, optional summary, loop counter. -/
structure Turn where
  steps : List Step
  summary : Option String
  loop_count : Nat
  deriving DecidableEq, Repr

instance : Inhabited Turn := ⟨⟨[], none, 0⟩⟩

/-- A fresh `Turn()` with pydantic defaults. -/
def Turn.empty : Turn := ⟨[], none, 0⟩

/-- `Turn._add_step` building a new message from kwargs and appending it. -/
def Turn.add_step (t : Turn) (m : Message) (usage : Option Nat) : Turn :=
  { t with steps := t.steps ++ [⟨m, usage⟩] }

/-- `Turn.add_system`. -/
def Turn.add_system (t : Turn) (content : String) : Turn :=
  t.add_step ⟨"system", some content, [], none, none⟩ none

/-- `Turn.add_user`. -/
def Turn.add_user (t : Turn) (content : String) : Turn :=
  t.add_step ⟨"user", some content, [], none, none⟩ none

/-- `Turn.add_assistant`. -/
def Turn.add_assistant (t : Turn) (content : String) (usage : Option Nat) : Turn :=
  t.add_step ⟨"assistant", some content, [], none, none⟩ usage

/-- `Turn.add_tool`: a tool-role step carrying name, content and call id. -/
def Turn.add_tool (t : Turn) (name : String) (content : String)
    (tool_call_id : Option String) : Turn :=
  t.add_step ⟨"tool", some content, [], some name, tool_call_id⟩ none

/-- `Turn.add_raw`: append an already-structured message as-is. -/
def Turn.add_raw (t : Turn) (m : Message) (usage : Option Nat) : Turn :=
  { t with steps := t.steps ++ [⟨m, usage⟩] }

/-- `Turn.get_exchange`: the first user step and the last assistant step,
or `none` when either is missing.  The fold mirrors the Python loop over
`self.steps`. -/
def Turn.get_exchange (t : Turn) : Option (Step × Step) :=
  let pair := t.steps.foldl
    (fun (acc : Option Step × Option Step) step =>
      if step.message.role = "user" then
        (if acc.1.isNone then (some step, acc.2) else acc)
      else if step.message.role = "assistant" then (acc.1, some step)
      else acc)
    (none, none)
  match pair with
  | (some u, some a) => some (u, a)
  | _ => none

/-- One `{"user": ..., "assistant": ...}` dict of
`Conversation.get_exchange_summary`.  Dict values are Python strings or
`None` (a step's `content` may be `None`), hence `Option String`. -/
structure ExchangePair where
  user : Option String
  assistant : Option String
  deriving DecidableEq, Repr

/-- `conversation.Conversation`. -/
structure Conversation where
  system_prompt : Option String
  turns : List Turn
  deriving DecidableEq, Repr

/-- `Conversation.add_turn` with an explicit turn. -/
def Conversation.add_turn (c : Conversation) (t : Turn) : Conversation :=
  { c with turns := c.turns ++ [t] }

/-- `Conversation.get_exchange_summary`: one dict per turn.  A turn whose
`get_exchange()` is `None` contributes `{"user": "", "assistant": ""}`
(the initial dict is never overwritten); otherwise both fields are
overwritten with the steps' raw `content` values. -/
def Conversation.get_exchange_summary (c : Conversation) : List ExchangePair :=
  c.turns.map (fun turn =>
    match turn.get_exchange with
    | some (u, a) => ⟨u.message.content, a.message.content⟩
    | none => ⟨some "", some ""⟩)

/-- Count of maximal non-whitespace runs in a character list; the
second argument records whether the previous character was inside a
word. -/
def count_words : List Char → Bool → Nat
  | [], _ => 0
  | c :: rest, inWord =>
    if c.isWhitespace then count_words rest false
    else (if inWord then 0 else 1) + count_words rest true

/-- Number of words of `text.split()`: Python splits on whitespace runs
and drops empty pieces, so the length of the list is the number of
maximal non-whitespace runs. -/
def word_count (text : String) : Nat :=
  count_words text.data false

/-- `estimate_tokens`: `int(len(text.split()) * 1.3)`, modelled exactly
as `13 * words / 10` (see the header note on floating point). -/
def estimate_tokens (text : String) : Nat :=
  13 * word_count text / 10

/-- Newest-first selection walk of `select_history_by_token_budget`:
accumulate `estimate_tokens(pc["user"]) + estimate_tokens(pc["assistant"])`
and break at the first pair that would push the total over the budget.
`none` models the `AttributeError` Python raises when a dict value is
`None` (`None.split()` inside `estimate_tokens`). -/
def select_rev (max_tokens : Nat) : Nat → List ExchangePair → Option (List ExchangePair)
  | _, [] => some []
  | total, pc :: rest =>
    match pc.user, pc.assistant with
    | some u, some a =>
      let pair_tokens := estimate_tokens u + estimate_tokens a
      if max_tokens < total + pair_tokens then some []
      else (select_rev max_tokens (total + pair_tokens) rest).map (fun sel => pc :: sel)
    | _, _ => none

/-- `select_history_by_token_budget`: iterate newest → oldest over the
reversed list, then reverse the selection back to oldest → newest. -/
def select_history_by_token_budget (summary_exchanges : List ExchangePair)
    (max_tokens : Nat) : Option (List ExchangePair) :=
  (select_rev max_tokens 0 summary_exchanges.reverse).map List.reverse

/-- Estimated cost of one exchange pair, for stating budget facts about
pairs whose two fields are present. -/
def pair_cost (pc : ExchangePair) : Nat :=
  estimate_tokens (pc.user.getD "") + estimate_tokens (pc.assistant.getD "")

/-- Total estimated cost of a list of exchange pairs. -/
def total_cost (l : List ExchangePair) : Nat :=
  (l.map pair_cost).sum

/-- Both dict values of the pair are actual strings (not `None`). -/
def ExchangePair.textual (pc : ExchangePair) : Prop :=
  pc.user ≠ none ∧ pc.assistant ≠ none

instance (pc : ExchangePair) : Decidable pc.textual := by
  unfold ExchangePair.textual; infer_instance

/-- `settings.MAX_HISTORY_TOKENS`. -/
def MAX_HISTORY_TOKENS : Nat := 4000

/-- `settings.DEFAULT_SYSTEM_PROMPT`. -/
def DEFAULT_SYSTEM_PROMPT : String :=
  "You are Astrid, an AI assistant that helps users with a variety of tasks."

/-- The part of the config dict `create_initial_turn` reads:
`config.get("system_prompt", settings.DEFAULT_SYSTEM_PROMPT)`. -/
structure Config where
  system_prompt : Option String
  deriving DecidableEq, Repr

/-- Python str() formatting of a dict value inside an f-string:
`None` renders as the text "None". -/
def py_str : Option String → String
  | none => "None"
  | some s => s

/-- One line of the history summary:
f"User: ...\nAssistant: ...". -/
def render_exchange (pc : ExchangePair) : String :=
  "User: " ++ py_str pc.user ++ "\nAssistant: " ++ py_str pc.assistant

/-- `create_initial_turn`: system prompt, then the synthetic assistant
history-summary step, then the new user input.  Returns `none` when the
history selector raises on a `None` dict value (the exception
propagates out of `create_initial_turn`). -/
def create_initial_turn (config : Config) (user_input : String)
    (conversation : Conversation) : Option Turn :=
  let turn := Turn.empty
  let turn := turn.add_system (config.system_prompt.getD DEFAULT_SYSTEM_PROMPT)
  let full_exchange_history := conversation.get_exchange_summary
  match select_history_by_token_budget full_exchange_history MAX_HISTORY_TOKENS with
  | none => none
  | some exchange_summary =>
    let summary := "RECENT CONVERSATION HISTORY\n\n" ++
      String.intercalate "\n\n" (exchange_summary.map render_exchange)
    let turn := turn.add_assistant summary none
    some (turn.add_user user_input)

/-- A JSON parse collaborator: `json.loads`, where `none` models a
raised exception (including on malformed input). -/
abbrev JsonParser := String → Option JValue

/-- `utils.safe_json_loads`: `json.loads(s) if s else {}` with every
exception converted to the empty dict.  Total by construction, which is
the formal counterpart of "never raises". -/
def safe_json_loads (parse : JsonParser) (s : String) : JValue :=
  if s = "" then JValue.obj []
  else
    match parse s with
    | some v => v
    | none => JValue.obj []

/-- A content block of a fastmcp tool result; `text` is
`getattr(block, "text", None)`. -/
structure ContentBlock where
  text : Option String
  deriving DecidableEq, Repr

/-- The fastmcp `CallToolResult` as `utils.run_tool` reads it. -/
structure CallToolResult where
  data : Option JValue
  content : Option (List ContentBlock)
  structured_content : Option JValue
  is_error : Option Bool

/-- The truthy text blocks collected by `run_tool`'s fallback:
`if text: texts.append(text)` keeps only non-`None`, non-empty texts. -/
def truthy_texts (result : CallToolResult) : List String :=
  (result.content.getD []).filterMap (fun b =>
    match b.text with
    | some t => if t = "" then none else some t
    | none => none)

/-- The dict serialized on `run_tool`'s last-resort path. -/
def run_tool_metadata (result : CallToolResult) : JValue :=
  JValue.obj
    [("structured_content", result.structured_content.getD JValue.null),
     ("is_error", match result.is_error with
                  | some b => JValue.bool b
                  | none => JValue.null)]

/-- The message of the `RuntimeError` raised by `run_tool` when the
collaborator raises `ToolError`. -/
def run_tool_fail_msg (name : String) (e : String) : String :=
  "MCP tool \x27" ++ name ++ "\x27 failed: " ++ e

/-- `utils.run_tool`.  `outcome` is the collaborator call
`client.call_tool(name, args)`: `Except.error e` models a raised
`ToolError` with message `e`.  `dumps` is `json.dumps(..., default=str)`
(total, see header).  The result's `Except.error` models the single
`RuntimeError` this function raises. -/
def run_tool (dumps : JValue → String) (outcome : Except String CallToolResult)
    (name : String) : Except String String :=
  match outcome with
  | Except.error e => Except.error (run_tool_fail_msg name e)
  | Except.ok result =>
    match result.data with
    | some d => Except.ok (dumps d)
    | none =>
      let texts := truthy_texts result
      if texts = [] then Except.ok (dumps (run_tool_metadata result))
      else Except.ok (String.intercalate "\n" texts)

/-- One fragment of the completion stream; only `delta.content` is
observed by the engine besides being accumulated. -/
structure StreamChunk where
  content : Option String
  deriving DecidableEq, Repr

/-- A tool-catalog entry in OpenAI format; only its presence matters to
the engine. -/
structure ToolParam where
  name : String
  description : String
  deriving DecidableEq, Repr

/-- The outcome of one `acompletion` call followed by
`stream_chunk_builder`: the streamed chunks, the collapsed assistant
message `final.choices[0].message`, and `final.usage`. -/
structure LLMResponse where
  chunks : List StreamChunk
  message : Message
  usage : Option Nat
  deriving DecidableEq, Repr

/-- The model-completion collaborator: messages, `tools`, `tool_choice`
in, a streamed response out; `Except.error` models a raised exception,
which the engine does not catch. -/
abbrev ModelOracle :=
  List Message → Option (List ToolParam) → Option String → Except String LLMResponse

/-- `tool_choice="auto" if tools else None` (both `None` and the empty
list are falsy). -/
def tool_choice_of (tools : Option (List ToolParam)) : Option String :=
  match tools with
  | some (_ :: _) => some "auto"
  | _ => none

/-- The UI sink as the engine calls it; `Except.error` models an
exception raised back into the engine.  `complete_turn` has no handler
around these calls. -/
structure UISink where
  set_status : String → Except String Unit
  hide_status : Unit → Except String Unit
  print_streaming_token : String → Except String Unit

/-- Exceptions escaping `complete_turn`: one raised by the model
collaborator or one raised by a UI sink call. -/
inductive EngineErr where
  | model (msg : String)
  | ui (msg : String)
  deriving DecidableEq, Repr

/-- `if ui: ui.<method>()` — a call guarded on the optional sink. -/
def ui_call (ui : Option UISink) (f : UISink → Except String Unit) :
    Except EngineErr Unit :=
  match ui with
  | none => Except.ok ()
  | some u =>
    match f u with
    | Except.ok _ => Except.ok ()
    | Except.error e => Except.error (EngineErr.ui e)

/-- The `async for chunk in stream` body: forward each truthy
`delta.content` to `ui.print_streaming_token` when a sink is present. -/
def stream_and_print (ui : Option UISink) : List StreamChunk → Except EngineErr Unit
  | [] => Except.ok ()
  | c :: rest =>
    match ui, c.content with
    | some u, some s =>
      if s = "" then stream_and_print ui rest
      else
        match u.print_streaming_token s with
        | Except.ok _ => stream_and_print ui rest
        | Except.error e => Except.error (EngineErr.ui e)
    | _, _ => stream_and_print ui rest

/-- The exception and its `traceback.format_exc()` text raised by a tool
invocation (`run_tool` seen from `complete_turn`). -/
structure ToolRaise where
  msg : String
  tb : String
  deriving DecidableEq, Repr

/-- The tool-execution capability as `complete_turn` uses it:
`await run_tool(client, name, args)`, either a result string or a raised
exception. -/
abbrev ToolExecutor := String → JValue → Except ToolRaise String

/-- The structured tool-error text built in `complete_turn`'s
`except` handler. -/
def tool_error_text (name : String) (err : String) (arg_str : String)
    (tb : String) : String :=
  "TOOL_ERROR: Tool \x27" ++ name ++ "\x27 failed.\n" ++
  "Error: " ++ err ++ "\n" ++
  "Original arguments: " ++ arg_str ++ "\n" ++
  "Traceback:\n" ++ tb

/-- The status label f"Running '{name}' with {arg_str[:100]}...". -/
def running_status (name : String) (arg_str : String) : String :=
  "Running \x27" ++ name ++ "\x27 with " ++ arg_str.take 100 ++ "..."

/-- The `for tc in tool_calls["tool_calls"]` body of `complete_turn`:
parse arguments tolerantly, signal status, run the tool converting a
raised exception into tool-error text (the duplicated `hide_status` on
the exception path is in the source), and append one tool step per
call.  UI exceptions propagate. -/
def run_tool_calls (parse : JsonParser) (ui : Option UISink) (exec : ToolExecutor)
    (t : Turn) : List ToolCall → Except EngineErr Turn
  | [] => Except.ok t
  | tc :: rest =>
    let args := safe_json_loads parse tc.arguments
    match ui_call ui (fun u => u.set_status (running_status tc.name tc.arguments)) with
    | Except.error e => Except.error e
    | Except.ok _ =>
      match exec tc.name args with
      | Except.ok result =>
        match ui_call ui (fun u => u.hide_status ()) with
        | Except.error e => Except.error e
        | Except.ok _ =>
          run_tool_calls parse ui exec
            (t.add_tool tc.name result (some tc.id)) rest
      | Except.error f =>
        match ui_call ui (fun u => u.hide_status ()) with
        | Except.error e => Except.error e
        | Except.ok _ =>
          match ui_call ui (fun u => u.hide_status ()) with
          | Except.error e => Except.error e
          | Except.ok _ =>
            run_tool_calls parse ui exec
              (t.add_tool tc.name
                (tool_error_text tc.name f.msg tc.arguments f.tb) (some tc.id)) rest

/-- The `while True` loop of `complete_turn`, on fuel.  Each continuing
iteration increments `loop_count` and requires `loop_count <
max_tool_loops` beforehand, so fuel `max_tool_loops + 1` never runs out
(`complete_turn_loop_fuel_unreachable`); the fuel-exhaustion branch is
dead code.  The returned `Nat` counts model requests performed. -/
def complete_turn_loop (model : ModelOracle) (parse : JsonParser)
    (ui : Option UISink) (hasClient : Bool) (tools : Option (List ToolParam))
    (exec : ToolExecutor) (max_tool_loops : Nat) :
    Nat → Turn → Nat → (Except EngineErr Turn) × Nat
  | 0, _, reqs => (Except.error (EngineErr.model "loop fuel exhausted"), reqs)
  | fuel + 1, t, reqs =>
    match ui_call ui (fun u => u.set_status "Generating response...") with
    | Except.error e => (Except.error e, reqs)
    | Except.ok _ =>
      match model (t.steps.map (fun s => s.message)) tools (tool_choice_of tools) with
      | Except.error e => (Except.error (EngineErr.model e), reqs + 1)
      | Except.ok resp =>
        match ui_call ui (fun u => u.hide_status ()) with
        | Except.error e => (Except.error e, reqs + 1)
        | Except.ok _ =>
          match stream_and_print ui resp.chunks with
          | Except.error e => (Except.error e, reqs + 1)
          | Except.ok _ =>
            let t1 := t.add_raw resp.message resp.usage
            if hasClient = false ∨ resp.message.tool_calls = [] then
              (Except.ok t1, reqs + 1)
            else if max_tool_loops ≤ t1.loop_count then
              (Except.ok t1, reqs + 1)
            else
              let t2 := { t1 with loop_count := t1.loop_count + 1 }
              match run_tool_calls parse ui exec t2 resp.message.tool_calls with
              | Except.error e => (Except.error e, reqs + 1)
              | Except.ok t3 =>
                complete_turn_loop model parse ui hasClient tools exec
                  max_tool_loops fuel t3 (reqs + 1)

/-- `complete_turn`: copy the caller's turn (value semantics of
`model_copy(deep=True)`), clear the status, run the loop.  The second
component counts model requests. -/
def complete_turn (model : ModelOracle) (parse : JsonParser) (ui : Option UISink)
    (hasClient : Bool) (tools : Option (List ToolParam)) (exec : ToolExecutor)
    (max_tool_loops : Nat) (initial_turn : Turn) : (Except EngineErr Turn) × Nat :=
  let new_turn := initial_turn
  match ui_call ui (fun u => u.hide_status ()) with
  | Except.error e => (Except.error e, 0)
  | Except.ok _ =>
    complete_turn_loop model parse ui hasClient tools exec max_tool_loops
      (max_tool_loops + 1) new_turn 0

/-- A store of `Turn` objects: Python object identities become indices
into the store, so mutation of one object and preservation of the
caller's object are both expressible. -/
abbrev TurnHeap := List Turn

/-- The engine loop acting on the turn store: every mutation the source
performs on `new_turn` (the `add_raw` append, the `loop_count`
increment, the tool-step appends) is a write at index `r`; `t` is the
current value of that object.  Consecutive writes within one iteration
are collapsed into one `List.set` per mutated intermediate value, which
preserves exactly which index is written.  Fuel as in
`complete_turn_loop`. -/
def heap_loop (model : ModelOracle) (parse : JsonParser) (ui : Option UISink)
    (hasClient : Bool) (tools : Option (List ToolParam)) (exec : ToolExecutor)
    (max_tool_loops : Nat) :
    Nat → TurnHeap → Nat → Turn → TurnHeap × Except EngineErr Unit
  | 0, heap, _, _ => (heap, Except.error (EngineErr.model "loop fuel exhausted"))
  | fuel + 1, heap, r, t =>
    match ui_call ui (fun u => u.set_status "Generating response...") with
    | Except.error e => (heap, Except.error e)
    | Except.ok _ =>
      match model (t.steps.map (fun s => s.message)) tools (tool_choice_of tools) with
      | Except.error e => (heap, Except.error (EngineErr.model e))
      | Except.ok resp =>
        match ui_call ui (fun u => u.hide_status ()) with
        | Except.error e => (heap, Except.error e)
        | Except.ok _ =>
          match stream_and_print ui resp.chunks with
          | Except.error e => (heap, Except.error e)
          | Except.ok _ =>
            let t1 := t.add_raw resp.message resp.usage
            let heap1 := heap.set r t1
            if hasClient = false ∨ resp.message.tool_calls = [] then
              (heap1, Except.ok ())
            else if max_tool_loops ≤ t1.loop_count then
              (heap1, Except.ok ())
            else
              let t2 := { t1 with loop_count := t1.loop_count + 1 }
              let heap2 := heap1.set r t2
              match run_tool_calls parse ui exec t2 resp.message.tool_calls with
              | Except.error e => (heap2, Except.error e)
              | Except.ok t3 =>
                heap_loop model parse ui hasClient tools exec max_tool_loops
                  fuel (heap2.set r t3) r t3

/-- `complete_turn` on the turn store: line 147's
`new_turn = initial_turn.model_copy(deep=True)` allocates a fresh,
independent object (index `heap.length`) holding a copy of the caller's
turn at `ref`; every later mutation targets the fresh index.  Returns
the store after the call, the index of the returned turn object, and
the call's outcome (`Except.error` = the exception that propagated). -/
def complete_turn_heap (model : ModelOracle) (parse : JsonParser)
    (ui : Option UISink) (hasClient : Bool) (tools : Option (List ToolParam))
    (exec : ToolExecutor) (max_tool_loops : Nat) (heap : TurnHeap) (ref : Nat) :
    TurnHeap × Nat × Except EngineErr Unit :=
  let new_ref := heap.length
  let new_turn := (heap.getD ref default)
  let heap1 := heap ++ [new_turn]
  match ui_call ui (fun u => u.hide_status ()) with
  | Except.error e => (heap1, new_ref, Except.error e)
  | Except.ok _ =>
    let res := heap_loop model parse ui hasClient tools exec max_tool_loops
      (max_tool_loops + 1) heap1 new_ref new_turn
    (res.1, new_ref, res.2)

/-- `needle` occurs as a contiguous substring of `hay`. -/
def str_contains (hay needle : String) : Prop :=
  ∃ pre post : List Char, hay.data = pre ++ needle.data ++ post

/-- `hay` starts with `needle`. -/
def str_starts_with (hay needle : String) : Prop :=
  ∃ rest : List Char, hay.data = needle.data ++ rest

/-- The tool-role step `complete_turn` appends for one tool call when no
UI sink is present: result text on success, the structured error text on
a raised exception. -/
def tool_result_text (parse : JsonParser) (exec : ToolExecutor) (tc : ToolCall) : String :=
  match exec tc.name (safe_json_loads parse tc.arguments) with
  | Except.ok s => s
  | Except.error f => tool_error_text tc.name f.msg tc.arguments f.tb

/-- The full step recorded by `Turn.add_tool` for one tool call. -/
def tool_step (parse : JsonParser) (exec : ToolExecutor) (tc : ToolCall) : Step :=
  ⟨⟨"tool", some (tool_result_text parse exec tc), [], some tc.name, some tc.id⟩, none⟩

/-! Concrete fixtures used by witnesses and counterexamples. -/

/-- An exchange of four words on each side: each side estimates to
`13 * 4 / 10 = 5` tokens, 10 tokens for the pair. -/
def ex_a : ExchangePair := ⟨some "alpha beta gamma delta", some "epsilon zeta eta theta"⟩

/-- A second 10-token exchange. -/
def ex_b : ExchangePair := ⟨some "iota kappa lambda mu", some "nu xi omicron pi"⟩

/-- A third 10-token exchange. -/
def ex_c : ExchangePair := ⟨some "rho sigma tau upsilon", some "phi chi psi omega"⟩

/-- A conversation whose single turn has no steps, hence no resolvable
user + assistant exchange. -/
def conv_no_exchange : Conversation := ⟨none, [Turn.empty]⟩

/-- A turn holding a user step and an assistant message whose `content`
is `None` (as a tool-call-only assistant message has). -/
def turn_none_content : Turn :=
  (Turn.empty.add_user "hi").add_raw ⟨"assistant", none, [], none, none⟩ none

/-- A conversation containing `turn_none_content`. -/
def conv_none_content : Conversation := ⟨none, [turn_none_content]⟩

/-- A UI sink each of whose methods raises. -/
def bad_ui : UISink :=
  ⟨fun _ => Except.error "boom", fun _ => Except.error "boom",
   fun _ => Except.error "boom"⟩

/-- A UI sink each of whose methods succeeds. -/
def ok_ui : UISink :=
  ⟨fun _ => Except.ok (), fun _ => Except.ok (), fun _ => Except.ok ()⟩

/-- A model oracle that always answers with a plain assistant message
and no tool calls. -/
def model_simple : ModelOracle :=
  fun _ _ _ => Except.ok ⟨[], ⟨"assistant", some "hi", [], none, none⟩, none⟩

/-- A model oracle that always requests one more tool call. -/
def model_looping : ModelOracle :=
  fun _ _ _ =>
    Except.ok ⟨[], ⟨"assistant", none, [⟨"id1", "lookup", "\x7b\x7d"⟩], none, none⟩, none⟩

/-- A model oracle that requests the tool call "boom". -/
def model_boom : ModelOracle :=
  fun _ _ _ =>
    Except.ok ⟨[], ⟨"assistant", none, [⟨"id9", "boom", "bad json"⟩], none, none⟩, none⟩

/-- A JSON parser that accepts only the empty object literal. -/
def parse_demo : JsonParser :=
  fun s => if s = "\x7b\x7d" then some (JValue.obj []) else none

/-- A tool executor that always succeeds. -/
def exec_ok : ToolExecutor := fun _ _ => Except.ok "result text"

/-- A tool executor that raises on the tool named "boom". -/
def exec_boom : ToolExecutor :=
  fun name _ =>
    if name = "boom" then Except.error ⟨"kaboom", "Traceback line"⟩
    else Except.ok "fine"

/-- A fixed serializer standing in for `json.dumps` in witnesses. -/
def dumps_demo : JValue → String := fun _ => "serialized"

/-! ## Helper lemmas -/

theorem str_data_append (a b : String) : (a ++ b).data = a.data ++ b.data := rfl

theorem total_cost_nil : total_cost [] = 0 := rfl

theorem total_cost_cons (pc : ExchangePair) (l : List ExchangePair) :
    total_cost (pc :: l) = pair_cost pc + total_cost l := by
  simp [total_cost]

theorem total_cost_reverse (l : List ExchangePair) :
    total_cost l.reverse = total_cost l := by
  unfold total_cost
  rw [List.map_reverse, List.sum_reverse]

/-- Behaviour of the newest-first walk on a list whose dict values are
all real strings: it returns a prefix of its input, keeps the running
total within budget, and stops exactly at the first overflowing pair. -/
theorem select_rev_spec (m : Nat) (l : List ExchangePair) :
    ∀ (total : Nat), (∀ pc ∈ l, pc.textual) → total ≤ m →
    ∃ r rest, select_rev m total l = some r ∧ l = r ++ rest
      ∧ total + total_cost r ≤ m
      ∧ (rest = [] ∨ ∃ x rest2, rest = x :: rest2 ∧ m < total + total_cost r + pair_cost x) := by
  induction l with
  | nil =>
    intro total _ htot
    exact ⟨[], [], rfl, rfl, by simpa [total_cost], Or.inl rfl⟩
  | cons pc tl ih =>
    intro total h htot
    obtain ⟨hu0, ha0⟩ := h pc (List.mem_cons_self pc tl)
    obtain ⟨u, hu⟩ := Option.ne_none_iff_exists'.mp hu0
    obtain ⟨a, ha⟩ := Option.ne_none_iff_exists'.mp ha0
    have hpc : pair_cost pc = estimate_tokens u + estimate_tokens a := by
      simp [pair_cost, hu, ha]
    by_cases hb : m < total + (estimate_tokens u + estimate_tokens a)
    · refine ⟨[], pc :: tl, ?_, rfl, by simpa [total_cost], Or.inr ⟨pc, tl, rfl, ?_⟩⟩
      · simp [select_rev, hu, ha, hb]
      · simpa [total_cost, hpc] using hb
    · have h2 : total + (estimate_tokens u + estimate_tokens a) ≤ m := Nat.le_of_not_lt hb
      obtain ⟨r, rest, heq, hsplit, hbud, hstop⟩ :=
        ih (total + (estimate_tokens u + estimate_tokens a))
          (fun q hq => h q (List.mem_cons_of_mem pc hq)) h2
      refine ⟨pc :: r, rest, ?_, by simp [hsplit], ?_, ?_⟩
      · simp [select_rev, hu, ha, hb, heq]
      · simpa [total_cost_cons, hpc, Nat.add_assoc] using hbud
      · rcases hstop with h0 | ⟨x, rest2, hrest, hx⟩
        · exact Or.inl h0
        · refine Or.inr ⟨x, rest2, hrest, ?_⟩
          simpa [total_cost_cons, hpc, Nat.add_assoc] using hx

/-! ## Claims -/

/-- C3: `select_history_by_token_budget` walks newest → oldest with the
per-pair estimated cost, keeps the running total within `max_tokens`,
stops permanently at the first overflowing exchange (the result is a
contiguous newest suffix of the input), and returns the selection
oldest-first; with per-pair costs [10,10,10] and a budget of 25 it
returns exactly the two newest pairs, and with budget 5 it returns the
empty list. -/
theorem select_history_budget :
    (∀ (l : List ExchangePair) (m : Nat), (∀ pc ∈ l, pc.textual) →
      ∃ sel, select_history_by_token_budget l m = some sel
        ∧ (∃ front, l = front ++ sel)
        ∧ total_cost sel ≤ m
        ∧ (sel = l ∨ ∃ front x, l = front ++ x :: sel ∧ m < pair_cost x + total_cost sel))
    ∧ select_history_by_token_budget [ex_a, ex_b, ex_c] 25 = some [ex_b, ex_c]
    ∧ select_history_by_token_budget [ex_a, ex_b, ex_c] 5 = some [] := by
  refine ⟨?_, rfl, rfl⟩
  intro l m htext
  obtain ⟨r, rest, heq, hsplit, hbud, hstop⟩ :=
    select_rev_spec m l.reverse 0
      (fun pc hpc => htext pc (List.mem_reverse.mp hpc)) (Nat.zero_le m)
  refine ⟨r.reverse, ?_, ⟨rest.reverse, ?_⟩, ?_, ?_⟩
  · simp [select_history_by_token_budget, heq]
  · have : l.reverse.reverse = (r ++ rest).reverse := by rw [hsplit]
    simpa [List.reverse_append] using this
  · simpa [total_cost_reverse] using hbud
  · rcases hstop with h0 | ⟨x, rest2, hrest, hx⟩
    · subst h0
      have : l.reverse.reverse = (r ++ ([] : List ExchangePair)).reverse := by rw [hsplit]
      exact Or.inl (by simpa using this.symm)
    · refine Or.inr ⟨rest2.reverse, x, ?_, ?_⟩
      · have : l.reverse.reverse = (r ++ (x :: rest2)).reverse := by rw [hsplit, hrest]
        simpa [List.reverse_append] using this
      · have := hx
        simp [total_cost_reverse]
        omega

/-- C3 witness: the general part applied to the concrete three-pair
history with budget 25. -/
theorem select_history_budget_witness :
    ∃ sel, select_history_by_token_budget [ex_a, ex_b, ex_c] 25 = some sel
      ∧ (∃ front, [ex_a, ex_b, ex_c] = front ++ sel)
      ∧ total_cost sel ≤ 25
      ∧ (sel = [ex_a, ex_b, ex_c]
         ∨ ∃ front x, [ex_a, ex_b, ex_c] = front ++ x :: sel ∧ 25 < pair_cost x + total_cost sel) :=
  select_history_budget.1 [ex_a, ex_b, ex_c] 25 (by intro pc hpc; fin_cases hpc <;> decide)

/-- C4 counterexample: the conversation `conv_no_exchange` has no turn
with a resolvable user + assistant pair, yet `get_exchange_summary`
hands the history selector one (placeholder) entry instead of skipping
the turn — the summary is not "one entry per prior Turn that has a
valid Exchange". -/
theorem exchange_summary_not_skipping_cex :
    (conv_no_exchange.turns.filter (fun t => t.get_exchange.isSome)).length = 0
    ∧ conv_no_exchange.get_exchange_summary = [⟨some "", some ""⟩] :=
  ⟨rfl, rfl⟩

/-- C4 amended: the sequence handed to the history selector contains one
entry per prior Turn, valid Exchange or not; a Turn without a resolvable
user + assistant pair contributes the placeholder entry
`{"user": "", "assistant": ""}` rather than being skipped, and a Turn
with an Exchange contributes its two raw content values. -/
theorem exchange_summary_entry_per_turn (c : Conversation) :
    (c.get_exchange_summary).length = c.turns.length
    ∧ ∀ (i : Nat) (hi : i < c.turns.length),
        ((c.turns[i]).get_exchange = none →
          (c.get_exchange_summary)[i]? = some ⟨some "", some ""⟩)
      ∧ (∀ u a, (c.turns[i]).get_exchange = some (u, a) →
          (c.get_exchange_summary)[i]? = some ⟨u.message.content, a.message.content⟩) := by
  constructor
  · simp [Conversation.get_exchange_summary]
  · intro i hi
    have hget : (c.get_exchange_summary)[i]? =
        Option.map (fun turn =>
          match turn.get_exchange with
          | some (u, a) => (⟨u.message.content, a.message.content⟩ : ExchangePair)
          | none => ⟨some "", some ""⟩) c.turns[i]? := by
      simp [Conversation.get_exchange_summary, List.getElem?_map]
    have hsome : c.turns[i]? = some (c.turns[i]) := by
      simp [List.getElem?_eq_getElem hi]
    constructor
    · intro hnone
      rw [hget, hsome]
      simp [hnone]
    · intro u a hsa
      rw [hget, hsome]
      simp [hsa]

/-- C4 witness: the amended statement applied to `conv_no_exchange`. -/
theorem exchange_summary_entry_per_turn_witness :
    (conv_no_exchange.get_exchange_summary).length = conv_no_exchange.turns.length
    ∧ (conv_no_exchange.get_exchange_summary)[0]? = some ⟨some "", some ""⟩ :=
  ⟨(exchange_summary_entry_per_turn conv_no_exchange).1,
   ((exchange_summary_entry_per_turn conv_no_exchange).2 0 (by decide)).1 rfl⟩

/-- C8: `safe_json_loads` never raises (it is total); it returns the
parsed value on every string the parse collaborator accepts and the
empty dict on every other string, the empty string included (`parse` is
any `json.loads`-like collaborator, so `parse "" = none` since the
empty string is not valid JSON). -/
theorem safe_json_loads_spec (parse : JsonParser) (hnil : parse "" = none) (s : String) :
    (∀ v, parse s = some v → safe_json_loads parse s = v)
    ∧ (parse s = none → safe_json_loads parse s = JValue.obj []) := by
  by_cases hs : s = ""
  · subst hs
    constructor
    · intro v hv
      rw [hnil] at hv
      exact absurd hv (by simp)
    · intro _
      simp [safe_json_loads]
  · constructor
    · intro v hv
      simp [safe_json_loads, hs, hv]
    · intro hv
      simp [safe_json_loads, hs, hv]

/-- C8 witness: the theorem applied to the concrete parser `parse_demo`
on the malformed input "not json". -/
theorem safe_json_loads_spec_witness :
    safe_json_loads parse_demo "not json" = JValue.obj [] :=
  (safe_json_loads_spec parse_demo rfl "not json").2 rfl

/-- C9: `run_tool`'s fallback chain — serialized structured data when
the collaborator provides it, else the newline-joined truthy text
blocks, else the serialized structured/error metadata; every successful
collaborator call yields `Except.ok` with some text, and a raised
`ToolError` becomes exactly one error, the `RuntimeError` whose message
names the tool. -/
theorem run_tool_spec (dumps : JValue → String) (outcome : Except String CallToolResult)
    (name : String) :
    (∀ res d, outcome = Except.ok res → res.data = some d →
        run_tool dumps outcome name = Except.ok (dumps d))
    ∧ (∀ res, outcome = Except.ok res → res.data = none → truthy_texts res ≠ [] →
        run_tool dumps outcome name = Except.ok (String.intercalate "\n" (truthy_texts res)))
    ∧ (∀ res, outcome = Except.ok res → res.data = none → truthy_texts res = [] →
        run_tool dumps outcome name = Except.ok (dumps (run_tool_metadata res)))
    ∧ (∀ res, outcome = Except.ok res → ∃ s, run_tool dumps outcome name = Except.ok s)
    ∧ (∀ e, outcome = Except.error e →
        run_tool dumps outcome name = Except.error (run_tool_fail_msg name e)
        ∧ str_contains (run_tool_fail_msg name e) name) := by
  refine ⟨?_, ?_, ?_, ?_, ?_⟩
  · intro res d ho hd
    subst ho
    simp [run_tool, hd]
  · intro res ho hd ht
    subst ho
    simp [run_tool, hd, ht]
  · intro res ho hd ht
    subst ho
    simp [run_tool, hd, ht]
  · intro res ho
    subst ho
    cases hd : res.data with
    | some d => exact ⟨dumps d, by simp [run_tool, hd]⟩
    | none =>
      by_cases ht : truthy_texts res = []
      · exact ⟨dumps (run_tool_metadata res), by simp [run_tool, hd, ht]⟩
      · exact ⟨String.intercalate "\n" (truthy_texts res), by simp [run_tool, hd, ht]⟩
  · intro e ho
    subst ho
    refine ⟨by simp [run_tool], "MCP tool \x27".data, ("\x27 failed: " ++ e).data, ?_⟩
    simp [run_tool_fail_msg, str_data_append, List.append_assoc]

/-- C9 witness: the error case of the theorem applied to a concrete
raised `ToolError`. -/
theorem run_tool_spec_witness :
    run_tool dumps_demo (Except.error "exploded") "lookup"
      = Except.error (run_tool_fail_msg "lookup" "exploded")
    ∧ str_contains (run_tool_fail_msg "lookup" "exploded") "lookup" :=
  (run_tool_spec dumps_demo (Except.error "exploded") "lookup").2.2.2.2 "exploded" rfl

/-- C10 counterexample: a conversation whose stored turn ends in an
assistant message with `content = None` (as a tool-call-only assistant
message has) makes `estimate_tokens` fail inside the history selector,
so `create_initial_turn` raises instead of returning a three-step Turn
— the claim does not hold for every Conversation. -/
theorem create_initial_turn_none_content_cex :
    create_initial_turn ⟨none⟩ "q" conv_none_content = none := rfl

/-- C10 amended: for every config, user input and Conversation all of
whose exchange-summary entries carry actual strings (every zero-turn
Conversation qualifies), `create_initial_turn` returns a Turn of
exactly three Steps: the configured system prompt, a synthetic
assistant Step whose content starts with "RECENT CONVERSATION HISTORY"
(present even when no exchange fits the budget), then the new user
input. -/
theorem create_initial_turn_three_steps (config : Config) (user_input : String)
    (conversation : Conversation)
    (h : ∀ pc ∈ conversation.get_exchange_summary, pc.textual) :
    ∃ t hist_content,
      create_initial_turn config user_input conversation = some t
      ∧ t.steps =
          [⟨⟨"system", some (config.system_prompt.getD DEFAULT_SYSTEM_PROMPT), [], none, none⟩, none⟩,
           ⟨⟨"assistant", some hist_content, [], none, none⟩, none⟩,
           ⟨⟨"user", some user_input, [], none, none⟩, none⟩]
      ∧ str_starts_with hist_content "RECENT CONVERSATION HISTORY" := by
  obtain ⟨r, rest, heq, -, -, -⟩ :=
    select_rev_spec MAX_HISTORY_TOKENS conversation.get_exchange_summary.reverse 0
      (fun pc hpc => h pc (List.mem_reverse.mp hpc)) (Nat.zero_le _)
  have hsel : select_history_by_token_budget conversation.get_exchange_summary
      MAX_HISTORY_TOKENS = some r.reverse := by
    simp [select_history_by_token_budget, heq]
  refine ⟨((Turn.empty.add_system
      (config.system_prompt.getD DEFAULT_SYSTEM_PROMPT)).add_assistant
        ("RECENT CONVERSATION HISTORY\n\n" ++
          String.intercalate "\n\n" (r.reverse.map render_exchange)) none).add_user user_input,
    "RECENT CONVERSATION HISTORY\n\n" ++
      String.intercalate "\n\n" (r.reverse.map render_exchange), ?_, ?_, ?_⟩
  · simp [create_initial_turn, hsel]
  · simp [Turn.empty, Turn.add_system, Turn.add_assistant, Turn.add_user, Turn.add_step]
  · refine ⟨("\n\n" ++ String.intercalate "\n\n" (r.reverse.map render_exchange)).data, ?_⟩
    simp [str_data_append, List.append_assoc]

/-- C10 witness: the amended statement applied to the empty (zero-turn)
conversation. -/
theorem create_initial_turn_three_steps_witness :
    ∃ t hist_content,
      create_initial_turn ⟨none⟩ "hello" ⟨none, []⟩ = some t
      ∧ t.steps =
          [⟨⟨"system", some DEFAULT_SYSTEM_PROMPT, [], none, none⟩, none⟩,
           ⟨⟨"assistant", some hist_content, [], none, none⟩, none⟩,
           ⟨⟨"user", some "hello", [], none, none⟩, none⟩]
      ∧ str_starts_with hist_content "RECENT CONVERSATION HISTORY" :=
  create_initial_turn_three_steps ⟨none⟩ "hello" ⟨none, []⟩
    (by intro pc hpc; simp [Conversation.get_exchange_summary] at hpc)

/-! ## Engine lemmas -/

theorem ui_call_none (f : UISink → Except String Unit) :
    ui_call none f = Except.ok () := rfl

theorem add_raw_loop_count (t : Turn) (m : Message) (u : Option Nat) :
    (t.add_raw m u).loop_count = t.loop_count := rfl

theorem add_raw_steps (t : Turn) (m : Message) (u : Option Nat) :
    (t.add_raw m u).steps = t.steps ++ [⟨m, u⟩] := rfl

theorem stream_and_print_none (cs : List StreamChunk) :
    stream_and_print none cs = Except.ok () := by
  induction cs with
  | nil => rfl
  | cons c rest ih => simpa [stream_and_print] using ih

/-- With no UI sink present, the tool-call loop never raises: it
appends exactly one tool step per requested call, in order. -/
theorem run_tool_calls_none (parse : JsonParser) (exec : ToolExecutor) :
    ∀ (tcs : List ToolCall) (t : Turn),
      run_tool_calls parse none exec t tcs
        = Except.ok { t with steps := t.steps ++ tcs.map (tool_step parse exec) } := by
  intro tcs
  induction tcs with
  | nil => intro t; simp [run_tool_calls]
  | cons tc rest ih =>
    intro t
    cases hx : exec tc.name (safe_json_loads parse tc.arguments) with
    | ok s =>
      simp [run_tool_calls, ui_call_none, hx, ih, Turn.add_tool, Turn.add_step,
        tool_step, tool_result_text, List.append_assoc]
    | error f =>
      simp [run_tool_calls, ui_call_none, hx, ih, Turn.add_tool, Turn.add_step,
        tool_step, tool_result_text, List.append_assoc]

/-- With no UI sink and a model collaborator that never raises, the
engine loop always terminates normally, only ever appending steps. -/
theorem complete_turn_loop_none_ok (model : ModelOracle) (parse : JsonParser)
    (hasClient : Bool) (tools : Option (List ToolParam)) (exec : ToolExecutor)
    (maxL : Nat)
    (hm : ∀ msgs, ∃ resp, model msgs tools (tool_choice_of tools) = Except.ok resp) :
    ∀ (fuel : Nat) (t : Turn) (reqs : Nat), maxL - t.loop_count < fuel →
      ∃ t' n, complete_turn_loop model parse none hasClient tools exec maxL fuel t reqs
          = (Except.ok t', n)
        ∧ ∃ added, t'.steps = t.steps ++ added := by
  intro fuel
  induction fuel with
  | zero => intro t reqs hf; omega
  | succ fuel ih =>
    intro t reqs hf
    obtain ⟨resp, hresp⟩ := hm (t.steps.map (fun s => s.message))
    by_cases hc : hasClient = false ∨ resp.message.tool_calls = []
    · refine ⟨t.add_raw resp.message resp.usage, reqs + 1, ?_, [⟨resp.message, resp.usage⟩], ?_⟩
      · simp [complete_turn_loop, ui_call_none, hresp, stream_and_print_none, hc]
      · simp [add_raw_steps]
    · by_cases hl : maxL ≤ t.loop_count
      · refine ⟨t.add_raw resp.message resp.usage, reqs + 1, ?_, [⟨resp.message, resp.usage⟩], ?_⟩
        · simp [complete_turn_loop, ui_call_none, hresp, stream_and_print_none, hc,
            add_raw_loop_count, hl]
        · simp [add_raw_steps]
      · have hcl : t.loop_count < maxL := Nat.lt_of_not_le hl
        have hstep : complete_turn_loop model parse none hasClient tools exec maxL
            (fuel + 1) t reqs
            = complete_turn_loop model parse none hasClient tools exec maxL fuel
                { t.add_raw resp.message resp.usage with
                    loop_count := (t.add_raw resp.message resp.usage).loop_count + 1,
                    steps := (t.add_raw resp.message resp.usage).steps
                      ++ resp.message.tool_calls.map (tool_step parse exec) }
                (reqs + 1) := by
          rw [complete_turn_loop]
          simp only [ui_call_none, hresp, stream_and_print_none, if_neg hc,
            add_raw_loop_count, if_neg hl]
          rw [run_tool_calls_none]
        obtain ⟨t', n, heq, added, hsteps⟩ := ih
          { t.add_raw resp.message resp.usage with
              loop_count := (t.add_raw resp.message resp.usage).loop_count + 1,
              steps := (t.add_raw resp.message resp.usage).steps
                ++ resp.message.tool_calls.map (tool_step parse exec) }
          (reqs + 1) (by simp [add_raw_loop_count]; omega)
        refine ⟨t', n, hstep.trans heq,
          [⟨resp.message, resp.usage⟩] ++ resp.message.tool_calls.map (tool_step parse exec)
            ++ added, ?_⟩
        simp only [hsteps, add_raw_steps]
        simp [List.append_assoc]

theorem add_tool_loop_count (t : Turn) (n c : String) (i : Option String) :
    (t.add_tool n c i).loop_count = t.loop_count := rfl

/-- `run_tool_calls` never touches `loop_count`. -/
theorem run_tool_calls_loop_count (parse : JsonParser) (ui : Option UISink)
    (exec : ToolExecutor) :
    ∀ (tcs : List ToolCall) (t t' : Turn),
      run_tool_calls parse ui exec t tcs = Except.ok t' → t'.loop_count = t.loop_count := by
  intro tcs
  induction tcs with
  | nil =>
    intro t t' h
    cases h
    rfl
  | cons tc rest ih =>
    intro t t' h
    rw [run_tool_calls] at h
    cases hs : ui_call ui (fun u => u.set_status (running_status tc.name tc.arguments)) with
    | error e => rw [hs] at h; cases h
    | ok _ =>
      rw [hs] at h
      cases hx : exec tc.name (safe_json_loads parse tc.arguments) with
      | ok s =>
        rw [hx] at h
        cases hh : ui_call ui (fun u => u.hide_status ()) with
        | error e => rw [hh] at h; cases h
        | ok _ =>
          rw [hh] at h
          exact (ih _ _ h).trans (add_tool_loop_count ..)
      | error f =>
        rw [hx] at h
        cases hh : ui_call ui (fun u => u.hide_status ()) with
        | error e => rw [hh] at h; cases h
        | ok _ =>
          rw [hh] at h
          exact (ih _ _ h).trans (add_tool_loop_count ..)

/-- Fuel insensitivity: any two fuels above `max_tool_loops -
loop_count` give the same result, so the fuel-exhaustion branch of
`complete_turn_loop` is unreachable from `complete_turn`'s initial fuel
`max_tool_loops + 1`. -/
theorem complete_turn_loop_fuel_unreachable (model : ModelOracle) (parse : JsonParser)
    (ui : Option UISink) (hasClient : Bool) (tools : Option (List ToolParam))
    (exec : ToolExecutor) (maxL : Nat) :
    ∀ (f1 f2 : Nat) (t : Turn) (reqs : Nat),
      maxL - t.loop_count < f1 → maxL - t.loop_count < f2 →
      complete_turn_loop model parse ui hasClient tools exec maxL f1 t reqs
        = complete_turn_loop model parse ui hasClient tools exec maxL f2 t reqs := by
  intro f1
  induction f1 with
  | zero => intro f2 t reqs h1 _; omega
  | succ f1 ih =>
    intro f2 t reqs h1 h2
    cases f2 with
    | zero => omega
    | succ f2 =>
      rw [complete_turn_loop, complete_turn_loop]
      cases hs1 : ui_call ui (fun u => u.set_status "Generating response...") with
      | error e => rfl
      | ok u1 =>
        simp only []
        cases hm : model (t.steps.map (fun s => s.message)) tools (tool_choice_of tools) with
        | error e => rfl
        | ok resp =>
          simp only []
          cases hh : ui_call ui (fun u => u.hide_status ()) with
          | error e => rfl
          | ok u2 =>
            simp only []
            cases hstr : stream_and_print ui resp.chunks with
            | error e => rfl
            | ok u3 =>
              simp only []
              by_cases hc : hasClient = false ∨ resp.message.tool_calls = []
              · simp [hc]
              · simp only [if_neg hc]
                by_cases hl : maxL ≤ (t.add_raw resp.message resp.usage).loop_count
                · simp [hl]
                · simp only [if_neg hl]
                  rw [add_raw_loop_count] at hl
                  cases hrun : run_tool_calls parse ui exec
                      { t.add_raw resp.message resp.usage with
                          loop_count := (t.add_raw resp.message resp.usage).loop_count + 1 }
                      resp.message.tool_calls with
                  | error e => simp [hrun]
                  | ok t3 =>
                    have h3 : t3.loop_count = t.loop_count + 1 := by
                      have := run_tool_calls_loop_count parse ui exec _ _ _ hrun
                      simpa [add_raw_loop_count] using this
                    simp only [hrun]
                    exact ih f2 t3 (reqs + 1) (by omega) (by omega)

/-- With no UI sink, a connected client, and a model collaborator that
always requests further tool calls, the loop performs one tool round
per remaining loop-budget unit: it terminates normally with
`loop_count = max t.loop_count maxL`, makes `maxL - t.loop_count + 1`
model requests, and the last appended step is the final assistant
message, its requested tool calls unfulfilled. -/
theorem complete_turn_loop_always_tools (model : ModelOracle) (parse : JsonParser)
    (tools : Option (List ToolParam)) (exec : ToolExecutor) (maxL : Nat)
    (hm : ∀ msgs, ∃ resp, model msgs tools (tool_choice_of tools) = Except.ok resp
            ∧ resp.message.tool_calls ≠ []) :
    ∀ (fuel : Nat) (t : Turn) (reqs : Nat), maxL - t.loop_count < fuel →
      ∃ t', complete_turn_loop model parse none true tools exec maxL fuel t reqs
          = (Except.ok t', reqs + (maxL - t.loop_count) + 1)
        ∧ t'.loop_count = max t.loop_count maxL
        ∧ ∃ s, t'.steps.getLast? = some s ∧ s.message.tool_calls ≠ [] := by
  intro fuel
  induction fuel with
  | zero => intro t reqs hf; omega
  | succ fuel ih =>
    intro t reqs hf
    obtain ⟨resp, hresp, hcalls⟩ := hm (t.steps.map (fun s => s.message))
    have hc : ¬(true = false ∨ resp.message.tool_calls = []) := by simp [hcalls]
    by_cases hl : maxL ≤ t.loop_count
    · refine ⟨t.add_raw resp.message resp.usage, ?_, ?_,
        ⟨resp.message, resp.usage⟩, ?_, hcalls⟩
      · have hz : maxL - t.loop_count = 0 := by omega
        rw [hz]
        simp [complete_turn_loop, ui_call_none, hresp, stream_and_print_none, hc,
          add_raw_loop_count, hl]
      · rw [add_raw_loop_count, Nat.max_eq_left hl]
      · simp [add_raw_steps, List.getLast?_concat]
    · have hcl : t.loop_count < maxL := Nat.lt_of_not_le hl
      have hstep : complete_turn_loop model parse none true tools exec maxL
          (fuel + 1) t reqs
          = complete_turn_loop model parse none true tools exec maxL fuel
              { t.add_raw resp.message resp.usage with
                  loop_count := (t.add_raw resp.message resp.usage).loop_count + 1,
                  steps := (t.add_raw resp.message resp.usage).steps
                    ++ resp.message.tool_calls.map (tool_step parse exec) }
              (reqs + 1) := by
        rw [complete_turn_loop]
        simp only [ui_call_none, hresp, stream_and_print_none, if_neg hc,
          add_raw_loop_count, if_neg hl]
        rw [run_tool_calls_none]
      obtain ⟨t', heq, hlc, hlast⟩ := ih
        { t.add_raw resp.message resp.usage with
            loop_count := (t.add_raw resp.message resp.usage).loop_count + 1,
            steps := (t.add_raw resp.message resp.usage).steps
              ++ resp.message.tool_calls.map (tool_step parse exec) }
        (reqs + 1) (by simp [add_raw_loop_count]; omega)
      refine ⟨t', ?_, ?_, hlast⟩
      · rw [hstep, heq]
        have : (reqs + 1) +
            (maxL - ({ t.add_raw resp.message resp.usage with
                loop_count := (t.add_raw resp.message resp.usage).loop_count + 1,
                steps := (t.add_raw resp.message resp.usage).steps
                  ++ resp.message.tool_calls.map (tool_step parse exec) } : Turn).loop_count)
            + 1 = reqs + (maxL - t.loop_count) + 1 := by
          simp only [add_raw_loop_count]
          omega
        rw [this]
      · rw [hlc]
        simp only [add_raw_loop_count]
        rw [Nat.max_eq_right (by omega : t.loop_count + 1 ≤ maxL),
          Nat.max_eq_right (by omega : t.loop_count ≤ maxL)]

/-- C1: with `loop_count` starting at 0, a connected client and a model
that always requests further tool calls, `complete_turn` with
`max_tool_loops = N` performs exactly `N` tool-invocation rounds
(`loop_count` ends at `N`, after `N + 1` model requests) and then
terminates normally: the loop-bound check fires after the assistant
step is appended, so the capped run raises no error and the returned
turn ends with the last assistant message as-is, its requested tool
calls unfulfilled. -/
theorem complete_turn_loop_bound (model : ModelOracle) (parse : JsonParser)
    (tools : Option (List ToolParam)) (exec : ToolExecutor) (N : Nat) (t : Turn)
    (h0 : t.loop_count = 0)
    (hm : ∀ msgs, ∃ resp, model msgs tools (tool_choice_of tools) = Except.ok resp
            ∧ resp.message.tool_calls ≠ []) :
    ∃ t', complete_turn model parse none true tools exec N t = (Except.ok t', N + 1)
      ∧ t'.loop_count = N
      ∧ ∃ s, t'.steps.getLast? = some s ∧ s.message.tool_calls ≠ [] := by
  obtain ⟨t', heq, hlc, hlast⟩ :=
    complete_turn_loop_always_tools model parse tools exec N hm (N + 1) t 0 (by omega)
  refine ⟨t', ?_, ?_, hlast⟩
  · have hw : complete_turn model parse none true tools exec N t
        = complete_turn_loop model parse none true tools exec N (N + 1) t 0 := rfl
    rw [hw, heq, h0]
    simp
  · rw [hlc, h0]
    simp

/-- C1 witness: the theorem applied to a concrete always-looping model
with `N = 2`. -/
theorem complete_turn_loop_bound_witness :
    ∃ t', complete_turn model_looping parse_demo none true none exec_ok 2 Turn.empty
        = (Except.ok t', 3)
      ∧ t'.loop_count = 2
      ∧ ∃ s, t'.steps.getLast? = some s ∧ s.message.tool_calls ≠ [] :=
  complete_turn_loop_bound model_looping parse_demo none exec_ok 2 Turn.empty rfl
    (fun _ => ⟨⟨[], ⟨"assistant", none, [⟨"id1", "lookup", "\x7b\x7d"⟩], none, none⟩, none⟩,
      rfl, by simp⟩)

/-- Occurrence of each component inside the structured tool-error text. -/
theorem tool_error_text_contains (name err arg tb : String) :
    str_contains (tool_error_text name err arg tb) name
    ∧ str_contains (tool_error_text name err arg tb) err
    ∧ str_contains (tool_error_text name err arg tb) arg
    ∧ str_contains (tool_error_text name err arg tb) tb := by
  refine ⟨⟨"TOOL_ERROR: Tool \x27".data,
      ("\x27 failed.\n" ++ "Error: " ++ err ++ "\n" ++ "Original arguments: "
        ++ arg ++ "\n" ++ "Traceback:\n" ++ tb).data, ?_⟩,
    ⟨("TOOL_ERROR: Tool \x27" ++ name ++ "\x27 failed.\n" ++ "Error: ").data,
      ("\n" ++ "Original arguments: " ++ arg ++ "\n" ++ "Traceback:\n" ++ tb).data, ?_⟩,
    ⟨("TOOL_ERROR: Tool \x27" ++ name ++ "\x27 failed.\n" ++ "Error: " ++ err
        ++ "\n" ++ "Original arguments: ").data,
      ("\n" ++ "Traceback:\n" ++ tb).data, ?_⟩,
    ⟨("TOOL_ERROR: Tool \x27" ++ name ++ "\x27 failed.\n" ++ "Error: " ++ err
        ++ "\n" ++ "Original arguments: " ++ arg ++ "\n" ++ "Traceback:\n").data,
      ([] : List Char), ?_⟩⟩ <;>
  simp [tool_error_text, str_data_append, List.append_assoc]

/-- C2: when a requested tool call's execution raises, `complete_turn`
does not raise: it terminates normally and the returned turn contains a
tool-role step for that call's id whose content carries the tool name,
the error message, the original argument string and the traceback. -/
theorem complete_turn_tool_failure_contained (model : ModelOracle) (parse : JsonParser)
    (tools : Option (List ToolParam)) (exec : ToolExecutor) (maxL : Nat) (t : Turn)
    (resp : LLMResponse) (tc : ToolCall) (f : ToolRaise)
    (hm : ∀ msgs, ∃ r, model msgs tools (tool_choice_of tools) = Except.ok r)
    (hok : model (t.steps.map (fun s => s.message)) tools (tool_choice_of tools)
      = Except.ok resp)
    (htc : tc ∈ resp.message.tool_calls)
    (hloop : t.loop_count < maxL)
    (hfail : exec tc.name (safe_json_loads parse tc.arguments) = Except.error f) :
    ∃ t' n, complete_turn model parse none true tools exec maxL t = (Except.ok t', n)
      ∧ ∃ s ∈ t'.steps,
          s.message.role = "tool"
          ∧ s.message.tool_call_id = some tc.id
          ∧ s.message.name = some tc.name
          ∧ ∃ text, s.message.content = some text
              ∧ str_contains text tc.name
              ∧ str_contains text f.msg
              ∧ str_contains text tc.arguments
              ∧ str_contains text f.tb := by
  have hcalls : resp.message.tool_calls ≠ [] := by
    intro h
    rw [h] at htc
    exact absurd htc (List.not_mem_nil tc)
  have hc : ¬(true = false ∨ resp.message.tool_calls = []) := by simp [hcalls]
  have hl : ¬ maxL ≤ t.loop_count := Nat.not_le_of_lt hloop
  have hstep : complete_turn model parse none true tools exec maxL t
      = complete_turn_loop model parse none true tools exec maxL maxL
          { t.add_raw resp.message resp.usage with
              loop_count := (t.add_raw resp.message resp.usage).loop_count + 1,
              steps := (t.add_raw resp.message resp.usage).steps
                ++ resp.message.tool_calls.map (tool_step parse exec) }
          1 := by
    have hw : complete_turn model parse none true tools exec maxL t
        = complete_turn_loop model parse none true tools exec maxL (maxL + 1) t 0 := rfl
    rw [hw, complete_turn_loop]
    simp only [ui_call_none, hok, stream_and_print_none, if_neg hc,
      add_raw_loop_count, if_neg hl]
    rw [run_tool_calls_none]
  obtain ⟨t', n, heq, added, hsteps⟩ :=
    complete_turn_loop_none_ok model parse true tools exec maxL hm maxL
      { t.add_raw resp.message resp.usage with
          loop_count := (t.add_raw resp.message resp.usage).loop_count + 1,
          steps := (t.add_raw resp.message resp.usage).steps
            ++ resp.message.tool_calls.map (tool_step parse exec) }
      1 (by simp [add_raw_loop_count]; omega)
  refine ⟨t', n, hstep.trans heq, tool_step parse exec tc, ?_, rfl, rfl, rfl, ?_⟩
  · rw [hsteps]
    refine List.mem_append_left _ ?_
    show tool_step parse exec tc ∈
      (t.add_raw resp.message resp.usage).steps
        ++ resp.message.tool_calls.map (tool_step parse exec)
    exact List.mem_append_right _ (List.mem_map_of_mem _ htc)
  · refine ⟨tool_error_text tc.name f.msg tc.arguments f.tb, ?_,
      tool_error_text_contains tc.name f.msg tc.arguments f.tb⟩
    show some (tool_result_text parse exec tc) = _
    rw [tool_result_text, hfail]

/-- C2 witness: the theorem applied to a concrete model requesting the
tool "boom" and an executor that raises on it. -/
theorem complete_turn_tool_failure_contained_witness :
    ∃ t' n, complete_turn model_boom parse_demo none true none exec_boom 4 Turn.empty
        = (Except.ok t', n)
      ∧ ∃ s ∈ t'.steps,
          s.message.role = "tool"
          ∧ s.message.tool_call_id = some "id9"
          ∧ s.message.name = some "boom"
          ∧ ∃ text, s.message.content = some text
              ∧ str_contains text "boom"
              ∧ str_contains text "kaboom"
              ∧ str_contains text "bad json"
              ∧ str_contains text "Traceback line" :=
  complete_turn_tool_failure_contained model_boom parse_demo none exec_boom 4 Turn.empty
    ⟨[], ⟨"assistant", none, [⟨"id9", "boom", "bad json"⟩], none, none⟩, none⟩
    ⟨"id9", "boom", "bad json"⟩ ⟨"kaboom", "Traceback line"⟩
    (fun _ => ⟨⟨[], ⟨"assistant", none, [⟨"id9", "boom", "bad json"⟩], none, none⟩, none⟩, rfl⟩)
    rfl (by simp) (by decide) rfl

/-- C5: when the tool catalog offered to the model is empty (and the
collaborator therefore requests no tool calls), `complete_turn`
terminates after exactly one model request and the returned turn's
`loop_count` equals the input's. -/
theorem complete_turn_no_tools (model : ModelOracle) (parse : JsonParser)
    (hasClient : Bool) (tools : Option (List ToolParam)) (exec : ToolExecutor)
    (maxL : Nat) (t : Turn) (resp : LLMResponse)
    (hempty : tools = none ∨ tools = some [])
    (hhonor : ∀ msgs r, model msgs tools (tool_choice_of tools) = Except.ok r →
        r.message.tool_calls = [])
    (hok : model (t.steps.map (fun s => s.message)) tools (tool_choice_of tools)
      = Except.ok resp) :
    complete_turn model parse none hasClient tools exec maxL t
      = (Except.ok (t.add_raw resp.message resp.usage), 1)
    ∧ (t.add_raw resp.message resp.usage).loop_count = t.loop_count := by
  have hcalls : resp.message.tool_calls = [] := hhonor _ _ hok
  refine ⟨?_, rfl⟩
  have hw : complete_turn model parse none hasClient tools exec maxL t
      = complete_turn_loop model parse none hasClient tools exec maxL (maxL + 1) t 0 := rfl
  rw [hw, complete_turn_loop]
  simp [ui_call_none, hok, stream_and_print_none, hcalls]

/-- C5 witness: the theorem applied to a concrete no-tool-calls model
with an empty (absent) catalog. -/
theorem complete_turn_no_tools_witness :
    complete_turn model_simple parse_demo none true none exec_ok 4 Turn.empty
      = (Except.ok (Turn.empty.add_raw ⟨"assistant", some "hi", [], none, none⟩ none), 1)
    ∧ (Turn.empty.add_raw ⟨"assistant", some "hi", [], none, none⟩ none).loop_count
      = Turn.empty.loop_count :=
  complete_turn_no_tools model_simple parse_demo true none exec_ok 4 Turn.empty
    ⟨[], ⟨"assistant", some "hi", [], none, none⟩, none⟩
    (Or.inl rfl)
    (fun _ r h => by cases h; rfl)
    rfl

theorem ui_call_ok (u : UISink) (f : UISink → Except String Unit)
    (h : f u = Except.ok ()) : ui_call (some u) f = Except.ok () := by
  simp [ui_call, h]

theorem stream_and_print_good (u : UISink)
    (hprint : ∀ s, u.print_streaming_token s = Except.ok ()) (cs : List StreamChunk) :
    stream_and_print (some u) cs = Except.ok () := by
  induction cs with
  | nil => rfl
  | cons c rest ih =>
    cases hc : c.content with
    | none => simpa [stream_and_print, hc] using ih
    | some s =>
      by_cases hs : s = ""
      · simp [stream_and_print, hc, hs, ih]
      · simp [stream_and_print, hc, hs, hprint s, ih]

theorem run_tool_calls_good (parse : JsonParser) (exec : ToolExecutor) (u : UISink)
    (hset : ∀ s, u.set_status s = Except.ok ())
    (hhide : ∀ x, u.hide_status x = Except.ok ()) :
    ∀ (tcs : List ToolCall) (t : Turn),
      run_tool_calls parse (some u) exec t tcs = run_tool_calls parse none exec t tcs := by
  intro tcs
  induction tcs with
  | nil => intro t; rfl
  | cons tc rest ih =>
    intro t
    cases hx : exec tc.name (safe_json_loads parse tc.arguments) with
    | ok s =>
      simp [run_tool_calls, ui_call, ui_call_none, hset, hhide, hx, ih]
    | error f =>
      simp [run_tool_calls, ui_call, ui_call_none, hset, hhide, hx, ih]

/-- A UI sink none of whose calls raises leaves the loop's outcome
exactly as if no sink were attached. -/
theorem complete_turn_loop_good (model : ModelOracle) (parse : JsonParser)
    (hasClient : Bool) (tools : Option (List ToolParam)) (exec : ToolExecutor)
    (maxL : Nat) (u : UISink)
    (hset : ∀ s, u.set_status s = Except.ok ())
    (hhide : ∀ x, u.hide_status x = Except.ok ())
    (hprint : ∀ s, u.print_streaming_token s = Except.ok ()) :
    ∀ (fuel : Nat) (t : Turn) (reqs : Nat),
      complete_turn_loop model parse (some u) hasClient tools exec maxL fuel t reqs
        = complete_turn_loop model parse none hasClient tools exec maxL fuel t reqs := by
  intro fuel
  induction fuel with
  | zero => intro t reqs; rfl
  | succ fuel ih =>
    intro t reqs
    rw [complete_turn_loop, complete_turn_loop]
    rw [ui_call_ok u _ (hset "Generating response..."), ui_call_none]
    simp only []
    cases hm : model (t.steps.map (fun s => s.message)) tools (tool_choice_of tools) with
    | error e => rfl
    | ok resp =>
      simp only []
      rw [ui_call_ok u _ (hhide ()), ui_call_none]
      simp only []
      rw [stream_and_print_good u hprint, stream_and_print_none]
      simp only []
      by_cases hc : hasClient = false ∨ resp.message.tool_calls = []
      · simp [hc]
      · simp only [if_neg hc]
        by_cases hl : maxL ≤ (t.add_raw resp.message resp.usage).loop_count
        · simp [hl]
        · simp only [if_neg hl]
          rw [run_tool_calls_good parse exec u hset hhide]
          cases hrun : run_tool_calls parse none exec
              { t.add_raw resp.message resp.usage with
                  loop_count := (t.add_raw resp.message resp.usage).loop_count + 1 }
              resp.message.tool_calls with
          | error e => simp [hrun]
          | ok t3 => simp [hrun, ih]

/-- C7 counterexample: a UI sink that raises aborts `complete_turn`
before any model request — the exception escapes the engine instead of
being swallowed, so the turn is not completed and returned. -/
theorem complete_turn_ui_failure_propagates_cex :
    complete_turn model_simple parse_demo (some bad_ui) true none exec_ok 4 Turn.empty
      = (Except.error (EngineErr.ui "boom"), 0) := rfl

/-- C7 amended: the engine has no handler around UI sink calls, so a
raising sink propagates its exception out of `complete_turn` (see the
counterexample); the spec's non-raising requirement is an obligation on
the sink. Whenever the sink's calls never raise, the turn completes
with exactly the result it would have without a sink. -/
theorem complete_turn_ui_good_equiv (model : ModelOracle) (parse : JsonParser)
    (hasClient : Bool) (tools : Option (List ToolParam)) (exec : ToolExecutor)
    (maxL : Nat) (t : Turn) (u : UISink)
    (hset : ∀ s, u.set_status s = Except.ok ())
    (hhide : ∀ x, u.hide_status x = Except.ok ())
    (hprint : ∀ s, u.print_streaming_token s = Except.ok ()) :
    complete_turn model parse (some u) hasClient tools exec maxL t
      = complete_turn model parse none hasClient tools exec maxL t := by
  rw [complete_turn, complete_turn]
  rw [ui_call_ok u _ (hhide ()), ui_call_none]
  simp only []
  exact complete_turn_loop_good model parse hasClient tools exec maxL u
    hset hhide hprint (maxL + 1) t 0

/-- C7 witness: the amended statement applied to the concrete
never-raising sink `ok_ui`. -/
theorem complete_turn_ui_good_equiv_witness :
    complete_turn model_simple parse_demo (some ok_ui) true none exec_ok 4 Turn.empty
      = complete_turn model_simple parse_demo none true none exec_ok 4 Turn.empty :=
  complete_turn_ui_good_equiv model_simple parse_demo true none exec_ok 4 Turn.empty
    ok_ui (fun _ => rfl) (fun _ => rfl) (fun _ => rfl)

/-- The engine loop writes only at the index of the turn object it
works on: every other slot of the store is untouched, whether the loop
completes or an exception escapes. -/
theorem heap_loop_frame (model : ModelOracle) (parse : JsonParser) (ui : Option UISink)
    (hasClient : Bool) (tools : Option (List ToolParam)) (exec : ToolExecutor)
    (maxL : Nat) :
    ∀ (fuel : Nat) (heap : TurnHeap) (r : Nat) (t : Turn) (j : Nat), j ≠ r →
      ((heap_loop model parse ui hasClient tools exec maxL fuel heap r t).1)[j]?
        = heap[j]? := by
  intro fuel
  induction fuel with
  | zero => intro heap r t j hj; rfl
  | succ fuel ih =>
    intro heap r t j hj
    rw [heap_loop]
    cases hs1 : ui_call ui (fun u => u.set_status "Generating response...") with
    | error e => rfl
    | ok u1 =>
      simp only []
      cases hm : model (t.steps.map (fun s => s.message)) tools (tool_choice_of tools) with
      | error e => rfl
      | ok resp =>
        simp only []
        cases hh : ui_call ui (fun u => u.hide_status ()) with
        | error e => rfl
        | ok u2 =>
          simp only []
          cases hstr : stream_and_print ui resp.chunks with
          | error e => rfl
          | ok u3 =>
            simp only []
            by_cases hc : hasClient = false ∨ resp.message.tool_calls = []
            · simp [hc, List.getElem?_set_ne (Ne.symm hj)]
            · simp only [if_neg hc]
              by_cases hl : maxL ≤ (t.add_raw resp.message resp.usage).loop_count
              · simp [hl, List.getElem?_set_ne (Ne.symm hj)]
              · simp only [if_neg hl]
                cases hrun : run_tool_calls parse ui exec
                    { t.add_raw resp.message resp.usage with
                        loop_count := (t.add_raw resp.message resp.usage).loop_count + 1 }
                    resp.message.tool_calls with
                | error e => simp [hrun, List.getElem?_set_ne (Ne.symm hj)]
                | ok t3 =>
                  simp only [hrun]
                  rw [ih _ _ _ j hj]
                  simp [List.getElem?_set_ne (Ne.symm hj)]

/-- C6: `complete_turn` never mutates the caller's Turn object — it
deep-copies into a fresh store slot first and every later write targets
the copy, so after the call (successful or aborted by an exception) all
pre-existing store slots, the caller's argument included, are
unchanged. -/
theorem complete_turn_heap_frame (model : ModelOracle) (parse : JsonParser)
    (ui : Option UISink) (hasClient : Bool) (tools : Option (List ToolParam))
    (exec : ToolExecutor) (maxL : Nat) (heap : TurnHeap) (ref j : Nat)
    (hj : j < heap.length) :
    ((complete_turn_heap model parse ui hasClient tools exec maxL heap ref).1)[j]?
      = heap[j]? := by
  have hne : j ≠ heap.length := Nat.ne_of_lt hj
  rw [complete_turn_heap]
  cases hu : ui_call ui (fun u => u.hide_status ()) with
  | error e =>
    simp only []
    simp [List.getElem?_append, hj]
  | ok u1 =>
    simp only []
    rw [heap_loop_frame model parse ui hasClient tools exec maxL (maxL + 1)
      (heap ++ [heap.getD ref default]) heap.length (heap.getD ref default) j hne]
    simp [List.getElem?_append, hj]

/-- C6 witness: the theorem applied to a concrete one-object store. -/
theorem complete_turn_heap_frame_witness :
    0 < ([Turn.empty] : TurnHeap).length
    ∧ ((complete_turn_heap model_simple parse_demo none true none exec_ok 4
          [Turn.empty] 0).1)[0]?
        = ([Turn.empty] : TurnHeap)[0]? :=
  ⟨by decide,
   complete_turn_heap_frame model_simple parse_demo none true none exec_ok 4
     [Turn.empty] 0 0 (by decide)⟩

end Astrid
